import Mathlib

/-!
Verification of the Excel → CiliumNetworkPolicy converter scripts
(`convert.js`, `converter_03_07_2025.js` and the unnamed sibling versions).

The JavaScript sources are shallowly embedded: every cell is a string (or
absent), JS objects used as string maps become association lists with
first-match lookup, regular expressions become explicit decidable matchers,
and the interesting functions (`splitLabels`, `detectType`, `makeRule`,
`parseExcel`, `validate`, `buildPolicy`, the `defaultPolicies` rewrite)
become computable Lean definitions translated line by line from the source.
String methods (`trim`, `split`, `toLowerCase`, `includes`, …) are modelled
by character-list functions so that every definition evaluates inside the
kernel.  Definitions whose name ends in `Spec` restate a sentence of the
design document; the theorems compare them with the embedded code.
-/

namespace Cilium

/-- Whitespace class removed by `String.prototype.trim` (ASCII part). -/
def isJsWhitespace (c : Char) : Bool :=
  c = ' ' ∨ c = '\t' ∨ c = '\n' ∨ c = '\r' ∨ c = '\x0b' ∨ c = '\x0c'

/-- JS `s.trim()`. -/
def jsTrim (s : String) : String :=
  String.mk (((s.toList.dropWhile isJsWhitespace).reverse.dropWhile
    isJsWhitespace).reverse)

/-- JS `s.includes(c)` for a single character. -/
def containsChar (s : String) (c : Char) : Bool :=
  s.toList.contains c

/-- JS `s.toLowerCase()` (ASCII). -/
def jsToLower (s : String) : String :=
  String.mk (s.toList.map Char.toLower)

/-- JS `s.toUpperCase()` (ASCII). -/
def jsToUpper (s : String) : String :=
  String.mk (s.toList.map Char.toUpper)

/-- JS `s.startsWith(p)`. -/
def jsStartsWith (s p : String) : Bool :=
  p.toList.isPrefixOf s.toList

/-- Splits a string at every character satisfying `p`, keeping empty
segments, as JS `String.prototype.split` on a single character does.  The
run-collapsing splits (`[\r\n,]+`) in the source are always followed by a
filter that drops empty items, so splitting at single characters is
equivalent there. -/
def splitCharsAux (p : Char → Bool) : List Char → List Char → List String
  | [], acc => [String.mk acc.reverse]
  | c :: cs, acc =>
    if p c then String.mk acc.reverse :: splitCharsAux p cs []
    else splitCharsAux p cs (c :: acc)

def splitChars (p : Char → Bool) (s : String) : List String :=
  splitCharsAux p s.toList []

/-- Delimiter class of the regex `[\r\n,]+` used for cell item lists. -/
def isCellDelim (c : Char) : Bool :=
  c = '\r' ∨ c = '\n' ∨ c = ','

/-- Delimiter class of the regex `[\n,]+` used by `splitLabels`. -/
def isLabelDelim (c : Char) : Bool :=
  c = '\n' ∨ c = ','

/-- Consume one or more leading decimal digits (`\d+`); `none` when the
first character is not a digit.  The regexes only ever follow `\d+` by a
non-digit, so maximal munch is exact. -/
def eatDigits : List Char → Option (List Char)
  | c :: cs => if c.isDigit then some (cs.dropWhile Char.isDigit) else none
  | [] => none

def eatChar (d : Char) : List Char → Option (List Char)
  | c :: cs => if c = d then some cs else none
  | [] => none

/-- Match `\d+\.\d+\.\d+\.\d+` at the head of the list, returning the rest. -/
def eatQuad (l : List Char) : Option (List Char) :=
  (eatDigits l).bind (eatChar '.') |>.bind eatDigits |>.bind (eatChar '.')
    |>.bind eatDigits |>.bind (eatChar '.') |>.bind eatDigits

/-- The regex `^\d+\.\d+\.\d+\.\d+$`. -/
def isIPv4 (s : String) : Bool :=
  eatQuad s.toList = some []

/-- The regex `^\d+\.\d+\.\d+\.\d+\/\d+$`. -/
def isCIDR (s : String) : Bool :=
  ((eatQuad s.toList).bind (eatChar '/') |>.bind eatDigits) = some []

/-- The regex `^\d+\.\d+\.\d+\.\d+(?:\/\d+)?$`. -/
def isIPorCIDR (s : String) : Bool :=
  isIPv4 s || isCIDR s

/-- The unanchored test `/\d+\.\d+\.\d+\.\d+/.test(s)`: some suffix starts
with a dotted quad. -/
def containsQuad (s : String) : Bool :=
  s.toList.tails.any (fun l => (eatQuad l).isSome)

/-- The test `/[a-zA-Z]/.test(s)`. -/
def hasAsciiLetter (s : String) : Bool :=
  s.toList.any (fun c => ('a' ≤ c ∧ c ≤ 'z') ∨ ('A' ≤ c ∧ c ≤ 'Z'))

/-- The test `/[А-Яа-яЁё]/.test(s)` used by `validate`. -/
def hasCyr (s : String) : Bool :=
  s.toList.any (fun c =>
    (0x410 ≤ c.toNat ∧ c.toNat ≤ 0x44F) ∨ c.toNat = 0x401 ∨ c.toNat = 0x451)

/-- JS object assignment `o[k] = v` on a string-keyed object modelled as an
association list: an existing key keeps its position and gets the new value,
a new key is appended. -/
def objSet {α : Type} : List (String × α) → String → α → List (String × α)
  | [], k, v => [(k, v)]
  | (k0, v0) :: rest, k, v =>
    if k0 = k then (k0, v) :: rest else (k0, v0) :: objSet rest k v

/-- Splits a raw segment at its first `:`; in the source this is
`const [k, ...v] = p.split(':')` followed by `v.join(':')`, with both sides
trimmed. -/
def splitFirstColon (p : String) : String × String :=
  let parts := splitChars (fun c => c = ':') p
  (jsTrim (parts.headD ""), jsTrim (String.intercalate ":" parts.tail))

/-- Function `splitLabels` from `convert.js` (identical in every version): split on
`[\n,]+`, trim, keep segments containing a colon, fold them into an object
where a repeated key is overwritten in place. -/
def splitLabels (raw : String) : List (String × String) :=
  (((splitChars isLabelDelim raw).map jsTrim).filter
      (fun s => containsChar s ':')).foldl
    (fun o p =>
      let kv := splitFirstColon p
      objSet o kv.1 kv.2) []

/-- Classified selector; constructor names follow the tags returned by
`detectType` in `converter_03_07_2025.js`. -/
inductive Selector where
  | empty : Selector
  | cidrList : List String → Selector
  | cidr : String → Selector
  | fqdn : String → Selector
  | label : String → Selector
deriving DecidableEq, Repr

/-- Item list of a cell: split on `[\r\n,]+`, trim, drop empties
(`.filter(Boolean)` in the source). -/
def cellItems (v : String) : List String :=
  ((splitChars isCellDelim v).map jsTrim).filter (fun s => s ≠ "")

/-- Function `detectType` from `converter_03_07_2025.js` lines 32–53, the full
six-way classifier described in the design document. -/
def detectType (v0 : String) : Selector :=
  let v := jsTrim v0
  if v = "" then .empty
  else
    let items := cellItems v
    if items.all isIPorCIDR ∧ items.length > 1 then
      .cidrList (items.map (fun it => if containsChar it '/' then it else it ++ "/32"))
    else if isCIDR v then .cidr v
    else if isIPv4 v then .cidr (v ++ "/32")
    else if hasAsciiLetter v ∧ containsChar v '.' then .fqdn (jsToLower v)
    else .label v

/-- Restates the classification order exactly as claim C2 words it:
empty, then multi-item all-CIDR list, then explicit-prefix single, then
bare single, then letter-and-dot FQDN, else label set. -/
def classifySpec (raw : String) : Selector :=
  let v := jsTrim raw
  if v = "" then .empty
  else
    let items := cellItems v
    if items.length > 1 ∧ items.all isIPorCIDR then
      .cidrList (items.map (fun it => if containsChar it '/' then it else it ++ "/32"))
    else if isCIDR v then .cidr v
    else if isIPv4 v then .cidr (v ++ "/32")
    else if hasAsciiLetter v ∧ containsChar v '.' then .fqdn (jsToLower v)
    else .label v

/-- A normalized row record as produced by `parseExcel` in `convert.js`
(lines 138–153).  The `rules` field destructured by `makeRule` is never set
by `parseExcel`, so it is absent from the model. -/
structure Entry where
  protocol : String
  sourceLabel : String
  destLabel : String
  direction : String
  port : String
  rowNum : Nat
deriving DecidableEq, Repr

abbrev LabelMap := List (String × String)

/-- One element of a `toPorts[0].ports` array: `{ port, protocol? }`. -/
structure PortEntry where
  port : String
  protocol : Option String
deriving DecidableEq, Repr

/-- A `toPorts` element `{ ports: [...] }`; the optional nested `rules`
field is never produced (see `Entry`). -/
structure PortBlock where
  ports : List PortEntry
deriving DecidableEq, Repr

/-- A translated rule fragment.  The JS object carries the dynamic keys
`${prefix}Endpoints` / `${prefix}CIDR` plus `toPorts`; each possible key is
a field here, `none` meaning the key is absent. -/
structure Rule where
  fromEndpoints : Option (List LabelMap) := none
  toEndpoints : Option (List LabelMap) := none
  fromCIDR : Option (List String) := none
  toCIDR : Option (List String) := none
  toPorts : List PortBlock := []
deriving DecidableEq, Repr

/-- The replacement `.replace(/^"|"$/g, '')`: drop one leading and one
trailing double quote. -/
def stripQuotes (s : String) : String :=
  let l := match s.toList with
    | '"' :: r => r
    | other => other
  String.mk (if l.getLast? = some '"' then l.dropLast else l)

/-- Function `makeRule` from `convert.js` lines 61–117. -/
def makeRule (e : Entry) : Rule :=
  let ing := e.direction = "ingress"
  let cell := if ing then e.sourceLabel else e.destLabel
  let lc : LabelMap × List String :=
    if cell ≠ "" then
      if containsQuad cell then
        ([], (((splitChars isCellDelim cell).map
            (fun s => stripQuotes (jsTrim s))).filter (fun s => s ≠ "")).map
            (fun ip => if containsChar ip '/' then ip else ip ++ "/32"))
      else if containsChar cell '/' ∧ ¬ jsStartsWith cell "app.kubernetes.io/" then
        let parts := splitChars (fun c => c = '/') cell
        ((splitLabels ((parts.get? 1).getD "")).foldl
          (fun o kv => objSet o kv.1 kv.2)
          [("io.kubernetes.pod.namespace", jsTrim (parts.headD ""))], [])
      else (splitLabels cell, [])
    else ([], [])
  let portList := ((splitChars isCellDelim e.port).map jsTrim).filter
    (fun s => s ≠ "")
  let portsArray := portList.map (fun pv =>
    { port := pv
      protocol :=
        if e.protocol ≠ "" ∧ jsToUpper e.protocol ≠ "ANY" then
          some (jsToUpper e.protocol)
        else none : PortEntry })
  { fromEndpoints := if ing ∧ lc.1.length ≠ 0 then some [lc.1] else none
    toEndpoints := if ¬ ing ∧ lc.1.length ≠ 0 then some [lc.1] else none
    fromCIDR := if ing ∧ lc.2.length ≠ 0 then some lc.2 else none
    toCIDR := if ¬ ing ∧ lc.2.length ≠ 0 then some lc.2 else none
    toPorts := [{ ports := portsArray }] }

/-- Claim C5's description of the port item list: split the port cell on
comma/newline into an ordered list of trimmed non-empty items. -/
def portItemsSpec (port : String) : List String :=
  ((splitChars isCellDelim port).map jsTrim).filter (fun s => s ≠ "")

/-- Concrete row used by claim C5: port cell `"80,443"`. -/
def exC5 : Entry :=
  { protocol := "tcp", sourceLabel := "app:a", destLabel := "app:b"
    direction := "ingress", port := "80,443", rowNum := 3 }

structure Metadata where
  name : String
  nspace : String
deriving DecidableEq, Repr

/-- The `spec` object of a generated policy; `ingress`/`egress` are
`none` when the key is absent from the JS object. -/
structure PolicySpec where
  endpointSelector : Option LabelMap
  ingress : Option (List Rule)
  egress : Option (List Rule)
deriving DecidableEq, Repr

structure Policy where
  apiVersion : String
  kind : String
  metadata : Metadata
  spec : PolicySpec
deriving DecidableEq, Repr

/-- The `ents.forEach` loop of `buildPolicy`: translate each entry and push
the fragment into the ingress bucket when `direction === 'ingress'`, into
the egress bucket otherwise. -/
def partRules : List Entry → List Rule × List Rule
  | [] => ([], [])
  | e :: rest =>
    let r := makeRule e
    let p := partRules rest
    if e.direction = "ingress" then (r :: p.1, p.2) else (p.1, r :: p.2)

/-- Function `buildPolicy` from `convert.js` lines 176–195. -/
def buildPolicy (ns groupKey : String) (ents : List Entry) : Policy :=
  let labels := splitLabels groupKey
  let values := labels.map (fun kv => kv.2)
  let suffix := if values.length > 0 then String.intercalate "-" values
    else "default"
  let p := partRules ents
  { apiVersion := "cilium.io/v2"
    kind := "CiliumNetworkPolicy"
    metadata := { name := ns ++ "-" ++ suffix, nspace := ns }
    spec :=
      { endpointSelector := if labels.length ≠ 0 then some labels else none
        ingress := if p.1.length ≠ 0 then some p.1 else none
        egress := if p.2.length ≠ 0 then some p.2 else none } }

/-- The spec's rule for emitting a possibly-empty list field: omit the key
entirely when the list is empty. -/
def omitIfEmpty {α : Type} (l : List α) : Option (List α) :=
  if l.isEmpty then none else some l

/-- Concrete row with an empty direction cell, used by claim C1. -/
def exC1 : Entry :=
  { protocol := "tcp", sourceLabel := "app:db", destLabel := "10.0.0.0/8"
    direction := "", port := "443", rowNum := 7 }

/-- A spreadsheet cell: `none` models JS `undefined`. -/
abbrev Cell := Option String

/-- One sheet row as handed over by `sheet_to_json(..., { header: 1 })`. -/
abbrev JRow := List Cell

/-- JS `String(c || '')`. -/
def cellStr (c : Cell) : String := c.getD ""

/-- Indexing `row[n]`: out-of-range access yields `undefined`. -/
def rowGet (r : JRow) (n : Nat) : Cell := r[n]?.getD none

/-- Truthiness of `c && String(c).trim()` for a cell. -/
def cellTruthyTrim (c : Cell) : Bool :=
  match c with
  | none => false
  | some s => s ≠ "" && jsTrim s ≠ ""

/-- Truthiness of `!row[0]` for a cell. -/
def cellFalsy (c : Cell) : Bool :=
  match c with
  | none => true
  | some s => s = ""

/-- JS `row.slice(1,6).some(c => c && String(c).trim())`. -/
def rowHasData (row : JRow) : Bool :=
  ((row.drop 1).take 5).any cellTruthyTrim

/-- Builds the entry object pushed by `parseExcel` for the 0-based sheet
row index `i` (`rowNum` is `i+1`). -/
def mkEntry (i : Nat) (row : JRow) : Entry :=
  let groupKey := jsTrim (cellStr (rowGet row 2))
  let direction := jsTrim (jsToLower (cellStr (rowGet row 3)))
  let other := jsTrim (cellStr (rowGet row 4))
  { protocol := jsTrim (cellStr (rowGet row 1))
    sourceLabel := if direction = "ingress" then other else groupKey
    destLabel := if direction = "ingress" then groupKey else other
    direction := direction
    port := jsTrim (cellStr (rowGet row 5))
    rowNum := i + 1 }

/-- The row loop of `parseExcel` (`convert.js` lines 132–156) over the
rows from sheet index `i` on, returning `(entries, missingNums)`.  The
`groups` object built in the same pass is just `entries` bucketed by its
group key and is not needed by any claim, so it is not modelled. -/
def extractLoop : Nat → List JRow → List Entry × List Nat
  | _, [] => ([], [])
  | i, row :: rest =>
    let p := extractLoop (i + 1) rest
    let ms := if rowHasData row ∧ cellFalsy (rowGet row 0) then (i + 1) :: p.2
      else p.2
    if rowHasData row then (mkEntry i row :: p.1, ms) else (p.1, ms)

/-- Function `parseExcel` from `convert.js` lines 120–158, minus the `groups`
object (see `extractLoop`): namespace header handling plus the row loop. -/
def parseExcel (rows : List JRow) :
    Except String (String × List Entry × List Nat) :=
  match rows[1]? with
  | none => .error "namespace not found in row 2"
  | some r1 =>
    match rowGet r1 0 with
    | none => .error "namespace not found in row 2"
    | some s =>
      if s = "" then .error "namespace not found in row 2"
      else
        let nsRaw := jsTrim s
        if ¬ containsChar nsRaw ':' then .error "bad namespace format"
        else
          .ok (jsTrim (String.intercalate ":"
              (splitChars (fun c => c = ':') nsRaw).tail),
            extractLoop 2 (rows.drop 2))

/-- Claim C7's description of the returned row list: keep exactly the
non-blank rows, in order. -/
def includedRowsSpec : Nat → List JRow → List Entry
  | _, [] => []
  | i, row :: rest =>
    if rowHasData row then mkEntry i row :: includedRowsSpec (i + 1) rest
    else includedRowsSpec (i + 1) rest

/-- Claim C7's description of the defect list: the 1-based positions of
the non-blank rows whose rule-number cell is absent or empty. -/
def defectRowsSpec : Nat → List JRow → List Nat
  | _, [] => []
  | i, row :: rest =>
    if rowHasData row ∧ cellFalsy (rowGet row 0) then
      (i + 1) :: defectRowsSpec (i + 1) rest
    else defectRowsSpec (i + 1) rest

/-- The concatenation tested for Cyrillic characters by `validate`. -/
def entryText (e : Entry) : String :=
  e.sourceLabel ++ e.destLabel ++ e.protocol ++ e.direction ++ e.port

/-- JS `(e.protocol || 'ANY').toUpperCase()`. -/
def normProto (p : String) : String :=
  jsToUpper (if p = "" then "ANY" else p)

/-- The duplicate key actually computed by `validate`:
`[direction, sourceLabel, destLabel, port, normalized protocol].join('|')`. -/
def sigKey (e : Entry) : String :=
  String.intercalate "|"
    [e.direction, e.sourceLabel, e.destLabel, e.port, normProto e.protocol]

/-- The rule signature as claim C6 words it: the tuple of the five cells. -/
def sigTuple (e : Entry) : String × String × String × String × String :=
  (e.direction, e.sourceLabel, e.destLabel, e.port, normProto e.protocol)

/-- The `entries.forEach` duplicate scan of `validate`: `seen` models the
JS object mapping joined keys to the first row number (`if (seen[key])` is
the truthiness test, hence the `getD 0 ≠ 0`; assignment is modelled by
consing, which shadows older bindings for first-match lookup). -/
def findDups : List (String × Nat) → List Entry → List (Nat × Nat)
  | _, [] => []
  | seen, e :: rest =>
    let prev := (seen.lookup (sigKey e)).getD 0
    if prev ≠ 0 then (prev, e.rowNum) :: findDups seen rest
    else findDups ((sigKey e, e.rowNum) :: seen) rest

inductive ValidateOutcome where
  | fatal : List Nat → ValidateOutcome
  | ok : List (Nat × Nat) → ValidateOutcome
deriving DecidableEq, Repr

/-- Function `validate` from `convert.js` lines 162–173: the Cyrillic check exits
the process (modelled as `.fatal` with the offending row numbers), else
the duplicate scan reports non-fatal warnings and the run continues
(modelled as `.ok`). -/
def validate (entries : List Entry) : ValidateOutcome :=
  let bad := entries.filter (fun e => hasCyr (entryText e))
  if bad.length ≠ 0 then .fatal (bad.map (fun e => e.rowNum))
  else .ok (findDups [] entries)

/-- Claim C6's description of the duplicate warnings, over the already
seen prefix: a row whose key already occurred is reported once, paired
with the FIRST earlier row bearing the same key; the first bearer is
never reported. -/
def dupSpecAux : List Entry → List Entry → List (Nat × Nat)
  | _, [] => []
  | pre, e :: rest =>
    match pre.find? (fun p => sigKey p == sigKey e) with
    | some p => (p.rowNum, e.rowNum) :: dupSpecAux (pre ++ [e]) rest
    | none => dupSpecAux (pre ++ [e]) rest

def dupSpec (entries : List Entry) : List (Nat × Nat) :=
  dupSpecAux [] entries

def optOr {α : Type} : Option α → Option α → Option α
  | some x, _ => some x
  | none, b => b

/-- Concrete rows used by claims C6 and C3. -/
def exC6a : Entry :=
  { protocol := "TCP", sourceLabel := "app:a", destLabel := "app:b"
    direction := "ingress", port := "80", rowNum := 3 }

def exC6b : Entry :=
  { protocol := "TCP", sourceLabel := "app:a", destLabel := "app:b"
    direction := "ingress", port := "80", rowNum := 4 }

def exC6c : Entry :=
  { protocol := "", sourceLabel := "c", destLabel := ""
    direction := "a|b", port := "", rowNum := 3 }

def exC6d : Entry :=
  { protocol := "", sourceLabel := "b|c", destLabel := ""
    direction := "a", port := "", rowNum := 4 }

def exC3 : Entry :=
  { protocol := "tcp", sourceLabel := "app:web", destLabel := "app:db"
    direction := "ingress", port := "", rowNum := 3 }

/-- A loaded YAML value, for the baseline (`default.yaml`) documents whose
shape is arbitrary. -/
inductive JVal where
  | s : String → JVal
  | n : Int → JVal
  | arr : List JVal → JVal
  | obj : List (String × JVal) → JVal
deriving Repr

abbrev JObj := List (String × JVal)

/-- The per-document rewrite `{...doc, metadata: { name, namespace }}` from
the `defaultPolicies` map in `convert.js` lines 221–223: the spread keeps
every top-level key in place and the literal then overwrites the whole
`metadata` value. -/
def rewriteDefault (ns : String) (doc : JObj) : JObj :=
  objSet doc "metadata"
    (.obj [("name", .s (ns ++ "-default")), ("namespace", .s ns)])

/-- Field `k` of the `metadata` object of a document. -/
def metaField (doc : JObj) (k : String) : Option JVal :=
  match doc.lookup "metadata" with
  | some (.obj fields) => fields.lookup k
  | _ => none

/-- Concrete baseline document used by claim C4: its metadata carries a
`labels` field besides `name` and `namespace`. -/
def exC4 : JObj :=
  [("apiVersion", .s "cilium.io/v2"),
   ("kind", .s "CiliumNetworkPolicy"),
   ("metadata", .obj
      [("name", .s "allow-dns"), ("namespace", .s "kube-system"),
       ("labels", .obj [("team", .s "core")])]),
   ("spec", .obj [])]

/-- Claim C9's kept segments, as trimmed (key, value) pairs in order:
split on comma/newline, trim, discard segments without a colon, split each
at its first colon. -/
def labelPairsSpec (raw : String) : List (String × String) :=
  (((splitChars isLabelDelim raw).map jsTrim).filter
    (fun s => containsChar s ':')).map splitFirstColon

end Cilium

namespace Cilium

/-- C2: for every raw cell the code classifier agrees with the check order
stated in the claim, and the three concrete examples from the spec hold:
`classify("10.0.0.1")` is CIDRSingle `"10.0.0.1/32"`,
`classify("10.0.0.1/24")` is CIDRSingle `"10.0.0.1/24"`, and
`classify("10.0.0.1,10.0.0.2")` is CIDRList `["10.0.0.1/32","10.0.0.2/32"]`. -/
theorem detectType_follows_claimed_order :
    (∀ v0 : String, detectType v0 = classifySpec v0)
    ∧ detectType "10.0.0.1" = .cidr "10.0.0.1/32"
    ∧ detectType "10.0.0.1/24" = .cidr "10.0.0.1/24"
    ∧ detectType "10.0.0.1,10.0.0.2" = .cidrList ["10.0.0.1/32", "10.0.0.2/32"] := by
  refine ⟨fun v0 => ?_, by decide, by decide, by decide⟩
  unfold detectType classifySpec
  by_cases h1 : jsTrim v0 = ""
  · simp [h1]
  · by_cases h2 : (cellItems (jsTrim v0)).all isIPorCIDR
    · by_cases h3 : (cellItems (jsTrim v0)).length > 1
      · simp [h1, h2, h3]
      · simp [h1, h2, h3]
    · simp [h1, h2]

/-- C5: for every row, the translated fragment carries exactly one
`toPorts` block, its entries are exactly the comma/newline-split items of
the port cell in order (duplicates preserved), and an entry carries a
protocol exactly when the row's protocol is non-empty and not the
case-insensitive wildcard `ANY`; concretely the port cell `"80,443"`
yields the two entries `80` then `443`. -/
theorem makeRule_ports_spec :
    (∀ e : Entry,
      (makeRule e).toPorts.length = 1
      ∧ (((makeRule e).toPorts.headD ⟨[]⟩).ports).map (fun pe => pe.port)
          = portItemsSpec e.port
      ∧ ∀ pe ∈ ((makeRule e).toPorts.headD ⟨[]⟩).ports,
          pe.protocol =
            (if e.protocol ≠ "" ∧ jsToUpper e.protocol ≠ "ANY" then
              some (jsToUpper e.protocol)
            else none))
    ∧ (((makeRule exC5).toPorts.headD ⟨[]⟩).ports).map (fun pe => pe.port)
        = ["80", "443"] := by
  refine ⟨fun e => ⟨rfl, ?_, ?_⟩, by decide⟩
  · simp [makeRule, portItemsSpec, List.map_map, Function.comp_def]
  · intro pe hpe
    simp only [makeRule, List.headD_cons, List.mem_map] at hpe
    obtain ⟨pv, _, hpv⟩ := hpe
    rw [← hpv]

theorem partRules_eq (ents : List Entry) :
    partRules ents
      = ((ents.filter (fun e => e.direction = "ingress")).map makeRule,
         (ents.filter (fun e => ¬ e.direction = "ingress")).map makeRule) := by
  induction ents with
  | nil => rfl
  | cons e rest ih =>
    by_cases h : e.direction = "ingress" <;> simp [partRules, h, ih]

theorem lengthCond_eq_omit {α : Type} (l : List α) :
    (if l.length ≠ 0 then some l else none) = omitIfEmpty l := by
  cases l <;> simp [omitIfEmpty]

/-- C8: the assembled document's selector is `matchLabels` of the parsed
group key when non-empty and the empty object otherwise; `ingress` and
`egress` are omitted exactly when their fragment lists are empty; the name
is the namespace, a dash, and the label values joined by dashes with the
literal `default` as fallback. -/
theorem buildPolicy_shape (ns gk : String) (ents : List Entry) :
    (buildPolicy ns gk ents).spec.endpointSelector
        = (if splitLabels gk = [] then none else some (splitLabels gk))
    ∧ (buildPolicy ns gk ents).spec.ingress
        = omitIfEmpty ((ents.filter (fun e => e.direction = "ingress")).map makeRule)
    ∧ (buildPolicy ns gk ents).spec.egress
        = omitIfEmpty ((ents.filter (fun e => ¬ e.direction = "ingress")).map makeRule)
    ∧ (buildPolicy ns gk ents).metadata.name
        = ns ++ "-" ++
            (if (splitLabels gk).map (fun kv => kv.2) = [] then "default"
             else String.intercalate "-" ((splitLabels gk).map (fun kv => kv.2))) := by
  refine ⟨?_, ?_, ?_, ?_⟩
  · cases h : splitLabels gk <;> simp [buildPolicy, h]
  · have h1 : (buildPolicy ns gk ents).spec.ingress
        = (if (partRules ents).1.length ≠ 0 then some (partRules ents).1
           else none) := rfl
    rw [h1, partRules_eq]
    exact lengthCond_eq_omit _
  · have h1 : (buildPolicy ns gk ents).spec.egress
        = (if (partRules ents).2.length ≠ 0 then some (partRules ents).2
           else none) := rfl
    rw [h1, partRules_eq]
    exact lengthCond_eq_omit _
  · cases h : splitLabels gk <;> simp [buildPolicy, h]

/-- C1 counterexample: for the concrete extracted row `exC1`, whose
direction cell is empty, the translated fragment IS placed in the egress
list of the assembled document, contradicting the claim that it lands in
neither the ingress nor the egress list. -/
theorem buildPolicy_empty_direction_cex :
    exC1.direction = ""
    ∧ (buildPolicy "ns" "app:db" [exC1]).spec.egress = some [makeRule exC1]
    ∧ (buildPolicy "ns" "app:db" [exC1]).spec.ingress = none :=
  ⟨rfl, rfl, rfl⟩

/-- C1 (amended): a row whose direction cell is empty has its translated
fragment placed in the egress list (the non-ingress branch) of the
assembled policy document. -/
theorem buildPolicy_empty_direction_in_egress
    (ns gk : String) (ents : List Entry) (e : Entry)
    (he : e ∈ ents) (hd : e.direction = "") :
    ∃ l, (buildPolicy ns gk ents).spec.egress = some l ∧ makeRule e ∈ l := by
  have hmem : e ∈ ents.filter (fun x => ¬ x.direction = "ingress") :=
    List.mem_filter.mpr ⟨he, by simp [hd]⟩
  have hne : ((ents.filter (fun x => ¬ x.direction = "ingress")).map makeRule).length ≠ 0 := by
    have := List.length_pos_of_mem (List.mem_map_of_mem makeRule hmem)
    omega
  refine ⟨_, ?_, List.mem_map_of_mem _ hmem⟩
  have h1 : (buildPolicy ns gk ents).spec.egress
      = (if (partRules ents).2.length ≠ 0 then some (partRules ents).2
         else none) := rfl
  rw [h1, partRules_eq]
  exact if_pos hne

/-- C1 witness: the amended statement instantiated at the concrete row
`exC1`. -/
theorem buildPolicy_empty_direction_in_egress_witness :
    ∃ l, (buildPolicy "ns" "app:db" [exC1]).spec.egress = some l
      ∧ makeRule exC1 ∈ l :=
  buildPolicy_empty_direction_in_egress "ns" "app:db" [exC1] exC1 (by decide) rfl

/-- C7: the extraction loop returns exactly the non-blank rows (inclusion
is independent of the defect list) and records exactly the non-blank rows
with a missing rule number by 1-based position; a row is blank iff all
five content cells are empty after trimming. -/
theorem extract_skip_blank_and_defects (i : Nat) (rows : List JRow) :
    extractLoop i rows = (includedRowsSpec i rows, defectRowsSpec i rows)
    ∧ ∀ row : JRow,
        (rowHasData row = false ↔
          ∀ c ∈ (row.drop 1).take 5, jsTrim (cellStr c) = "") := by
  constructor
  · induction rows generalizing i with
    | nil => rfl
    | cons row rest ih =>
      by_cases h1 : rowHasData row <;>
        by_cases h2 : cellFalsy (rowGet row 0) <;>
          simp [extractLoop, includedRowsSpec, defectRowsSpec, h1, h2, ih (i + 1)]
  · intro row
    have htrim : jsTrim "" = "" := by decide
    have hcell : ∀ c : Cell, cellTruthyTrim c = false ↔ jsTrim (cellStr c) = "" := by
      intro c
      match c with
      | none => simp [cellTruthyTrim, cellStr, htrim]
      | some s =>
        by_cases hs : s = ""
        · subst hs
          simp [cellTruthyTrim, cellStr, htrim]
        · simp [cellTruthyTrim, cellStr, hs]
    simp only [rowHasData, List.any_eq_false, Bool.not_eq_true]
    exact ⟨fun h c hc => (hcell c).mp (h c hc), fun h c hc => (hcell c).mpr (h c hc)⟩

/-- C7 witness: a concrete row whose protocol cell is only whitespace and
whose other content cells are empty or absent counts as blank. -/
theorem extract_skip_blank_and_defects_witness :
    rowHasData [some "1", some " ", none, some ""] = false :=
  ((extract_skip_blank_and_defects 0 []).2 [some "1", some " ", none, some ""]).mpr
    (by decide)

/-- C10: when row 2 exists and its first cell holds a non-empty string,
`parseExcel` succeeds iff the trimmed cell contains a colon anywhere — the
label before the colon is never compared against `namespace` — and the
returned namespace is everything after the first colon, trimmed. -/
theorem parseExcel_header (rows : List JRow) (r1 : JRow) (s : String)
    (h1 : rows[1]? = some r1) (h2 : rowGet r1 0 = some s) (h3 : s ≠ "") :
    (containsChar (jsTrim s) ':' = true →
      parseExcel rows = .ok
        (jsTrim (String.intercalate ":"
          (splitChars (fun c => c = ':') (jsTrim s)).tail),
         extractLoop 2 (rows.drop 2)))
    ∧ (containsChar (jsTrim s) ':' = false →
        ∃ msg, parseExcel rows = .error msg) := by
  constructor <;> intro hc <;> simp [parseExcel, h1, h2, h3, hc]

/-- C10 witness: the header cell `ns:a:b` is accepted although its label
is not `namespace`, and yields the namespace `a:b` (everything after the
first colon). -/
theorem parseExcel_header_witness :
    parseExcel [[], [some "ns:a:b"]] = .ok ("a:b", [], []) := by
  have h := (parseExcel_header [[], [some "ns:a:b"]] [some "ns:a:b"] "ns:a:b"
    rfl rfl (by decide)).1 (by decide)
  rw [h]
  rfl

theorem find?_optOr {α : Type} (p : α → Bool) (l₁ l₂ : List α) :
    (l₁ ++ l₂).find? p = optOr (l₁.find? p) (l₂.find? p) := by
  induction l₁ with
  | nil => simp [optOr]
  | cons a l ih =>
    by_cases h : p a <;> simp [List.find?, h, ih, optOr]

theorem findDups_eq_dupSpecAux :
    ∀ (rest pre : List Entry) (seen : List (String × Nat)),
      (∀ k : String,
        seen.lookup k
          = (pre.find? (fun p => sigKey p == k)).map (fun p => p.rowNum)) →
      (∀ e ∈ pre, 0 < e.rowNum) →
      (∀ e ∈ rest, 0 < e.rowNum) →
      findDups seen rest = dupSpecAux pre rest := by
  intro rest
  induction rest with
  | nil => intro pre seen _ _ _; rfl
  | cons e rest ih =>
    intro pre seen hinv hpre hrest
    have hk := hinv (sigKey e)
    have hrest' : ∀ x ∈ rest, 0 < x.rowNum := fun x hx => hrest x (by simp [hx])
    have hepos : 0 < e.rowNum := hrest e (by simp)
    cases hfind : pre.find? (fun p => sigKey p == sigKey e) with
    | some p =>
      have hp : p ∈ pre := List.mem_of_find?_eq_some hfind
      have hppos : 0 < p.rowNum := hpre p hp
      have hlook : seen.lookup (sigKey e) = some p.rowNum := by
        rw [hk, hfind]; rfl
      have hinv' : ∀ k : String,
          seen.lookup k
            = ((pre ++ [e]).find? (fun q => sigKey q == k)).map
                (fun q => q.rowNum) := by
        intro k
        rw [hinv k, find?_optOr]
        cases hf : pre.find? (fun q => sigKey q == k) with
        | some q => simp [optOr]
        | none =>
          by_cases hek : sigKey e = k
          · subst hek
            rw [hfind] at hf
            exact absurd hf (by simp)
          · have hb : (sigKey e == k) = false := by
              cases hb2 : sigKey e == k
              · rfl
              · exact absurd (eq_of_beq hb2) hek
            simp [optOr, List.find?, hb]
      have hpre' : ∀ x ∈ pre ++ [e], 0 < x.rowNum := by
        intro x hx
        rcases List.mem_append.mp hx with h | h
        · exact hpre x h
        · simp at h; subst h; exact hepos
      simp only [findDups, hlook, Option.getD_some, dupSpecAux, hfind]
      rw [if_pos hppos.ne']
      exact congrArg _ (ih (pre ++ [e]) seen hinv' hpre' hrest')
    | none =>
      have hlook : seen.lookup (sigKey e) = none := by
        rw [hk, hfind]; rfl
      have hinv' : ∀ k : String,
          ((sigKey e, e.rowNum) :: seen).lookup k
            = ((pre ++ [e]).find? (fun q => sigKey q == k)).map
                (fun q => q.rowNum) := by
        intro k
        rw [find?_optOr]
        by_cases hek : k = sigKey e
        · subst hek
          rw [hfind]
          simp [List.lookup, optOr, List.find?]
        · have hek' : ¬ sigKey e = k := fun h => hek h.symm
          have hb : (k == sigKey e) = false := by
            cases hb2 : k == sigKey e
            · rfl
            · exact absurd (eq_of_beq hb2) hek
          have hb' : (sigKey e == k) = false := by
            cases hb2 : sigKey e == k
            · rfl
            · exact absurd (eq_of_beq hb2) hek'
          have hcons : ((sigKey e, e.rowNum) :: seen).lookup k = seen.lookup k := by
            simp [List.lookup, hb]
          rw [hcons, hinv k]
          cases hf : pre.find? (fun q => sigKey q == k) with
          | some q => simp [optOr]
          | none => simp [optOr, List.find?, hb']
      have hpre' : ∀ x ∈ pre ++ [e], 0 < x.rowNum := by
        intro x hx
        rcases List.mem_append.mp hx with h | h
        · exact hpre x h
        · simp at h; subst h; exact hepos
      simp only [findDups, hlook, Option.getD_none, dupSpecAux, hfind]
      rw [if_neg (by simp)]
      exact ih (pre ++ [e]) ((sigKey e, e.rowNum) :: seen) hinv' hpre' hrest'

/-- C6 counterexample: the two concrete rows `exC6c` (row 3) and `exC6d`
(row 4) have DIFFERENT signature tuples — their direction/source cells
differ — yet because both `'|'`-join to the same string, `validate`
reports row 4 as a duplicate of row 3.  Row 4 is the first row bearing its
signature and the claim says such a row is never reported. -/
theorem validate_duplicate_cex :
    sigTuple exC6c ≠ sigTuple exC6d
    ∧ validate [exC6c, exC6d] = .ok [(3, 4)] :=
  ⟨by decide, by decide⟩

/-- C6 (amended): for every extracted row list (positive row numbers, no
Cyrillic content), validation does not abort and reports exactly the
duplicate pairings described by the claim, computed over the `'|'`-joined
key of (direction, source cell, destination cell, port cell, normalized
protocol): the first row bearing a key is never reported, and each later
row with the same key yields exactly one warning pairing the first such
row's position with its own. -/
theorem validate_duplicate_check (entries : List Entry)
    (hrow : ∀ e ∈ entries, 0 < e.rowNum)
    (hcyr : ∀ e ∈ entries, hasCyr (entryText e) = false) :
    validate entries = .ok (dupSpec entries) := by
  have hbad : entries.filter (fun e => hasCyr (entryText e)) = [] := by
    rw [List.filter_eq_nil_iff]
    intro e he
    simp [hcyr e he]
  simp only [validate, hbad]
  rw [if_neg (by simp)]
  exact congrArg _ (findDups_eq_dupSpecAux entries [] []
    (fun k => rfl) (by simp) hrow)

/-- C6 witness: two concrete rows with identical signatures produce
exactly one duplicate warning pairing their two row positions, and the
validation outcome is non-fatal. -/
theorem validate_duplicate_check_witness :
    validate [exC6a, exC6b] = .ok [(3, 4)] := by
  have h := validate_duplicate_check [exC6a, exC6b] (by decide) (by decide)
  rw [h]
  rfl

/-- C3: the code evaluated at the failing input — a row whose port cell is
empty: `validate` reports nothing (non-fatal, no warnings) and the
translated fragment carries an empty ports list, so the defect is NOT
surfaced by the Validator, contradicting the claim. -/
theorem validate_ignores_empty_ports :
    validate [exC3] = .ok [] ∧ (makeRule exC3).toPorts = [⟨[]⟩] :=
  ⟨by decide, by decide⟩

theorem lookup_objSet_self {α : Type} (l : List (String × α)) (k : String)
    (v : α) : (objSet l k v).lookup k = some v := by
  induction l with
  | nil => simp [objSet, List.lookup]
  | cons kv rest ih =>
    obtain ⟨k0, v0⟩ := kv
    by_cases h : k0 = k
    · subst h
      simp [objSet, List.lookup]
    · have hb : (k == k0) = false := by
        cases hb2 : k == k0
        · rfl
        · exact absurd (eq_of_beq hb2).symm h
      simp [objSet, h, List.lookup, hb, ih]

theorem lookup_objSet_ne {α : Type} (l : List (String × α)) (k k' : String)
    (v : α) (hne : k' ≠ k) : (objSet l k v).lookup k' = l.lookup k' := by
  have hb : (k' == k) = false := by
    cases hb2 : k' == k
    · rfl
    · exact absurd (eq_of_beq hb2) hne
  induction l with
  | nil => simp [objSet, List.lookup, hb]
  | cons kv rest ih =>
    obtain ⟨k0, v0⟩ := kv
    by_cases h : k0 = k
    · subst h
      simp [objSet, List.lookup, hb]
    · simp [objSet, h, List.lookup, ih]

theorem lookup_optOr_append {α : Type} (l₁ l₂ : List (String × α))
    (k : String) : (l₁ ++ l₂).lookup k = optOr (l₁.lookup k) (l₂.lookup k) := by
  induction l₁ with
  | nil => simp [optOr, List.lookup]
  | cons kv rest ih =>
    obtain ⟨k0, v0⟩ := kv
    cases hb : k == k0 <;> simp [List.lookup, hb, ih, optOr]

theorem optOr_assoc {α : Type} (a b c : Option α) :
    optOr (optOr a b) c = optOr a (optOr b c) := by
  cases a <;> simp [optOr]

theorem lookup_foldl_objSet {α : Type} (ps : List (String × α))
    (init : List (String × α)) (k : String) :
    (ps.foldl (fun o kv => objSet o kv.1 kv.2) init).lookup k
      = optOr (ps.reverse.lookup k) (init.lookup k) := by
  induction ps generalizing init with
  | nil => simp [optOr, List.lookup]
  | cons kv ps ih =>
    obtain ⟨k0, v0⟩ := kv
    rw [List.foldl_cons, ih, List.reverse_cons, lookup_optOr_append,
      optOr_assoc]
    have hinner : (objSet init k0 v0).lookup k
        = optOr ([(k0, v0)].lookup k) (init.lookup k) := by
      by_cases h : k = k0
      · subst h
        simp [lookup_objSet_self, List.lookup, optOr]
      · have hb : (k == k0) = false := by
          cases hb2 : k == k0
          · rfl
          · exact absurd (eq_of_beq hb2) h
        simp [lookup_objSet_ne init k0 k v0 h, List.lookup, hb, optOr]
    rw [hinner]

/-- C4 counterexample: rewriting the concrete baseline document `exC4`
(whose metadata carries a `labels` field) for namespace `prod` drops the
`labels` metadata field entirely, contradicting the claim that metadata
fields other than name and namespace are unchanged. -/
theorem defaultPolicies_rewrite_cex :
    metaField exC4 "labels" = some (.obj [("team", .s "core")])
    ∧ metaField (rewriteDefault "prod" exC4) "labels" = none
    ∧ metaField (rewriteDefault "prod" exC4) "name" = some (.s "prod-default") :=
  ⟨rfl, rfl, rfl⟩

/-- C4 (amended): the emitted copy of a baseline document replaces the
whole `metadata` value by exactly `{name: <namespace>-default, namespace}`
— any other metadata field is dropped — while every top-level field other
than `metadata` is unchanged. -/
theorem defaultPolicies_rewrite (ns : String) (doc : JObj) :
    (rewriteDefault ns doc).lookup "metadata"
        = some (.obj [("name", .s (ns ++ "-default")), ("namespace", .s ns)])
    ∧ ∀ k : String, k ≠ "metadata" →
        (rewriteDefault ns doc).lookup k = doc.lookup k :=
  ⟨lookup_objSet_self doc "metadata" _,
   fun k hk => lookup_objSet_ne doc "metadata" k _ hk⟩

/-- C4 witness: the amended statement instantiated at `exC4` and the
untouched top-level key `kind`. -/
theorem defaultPolicies_rewrite_witness :
    ("kind" : String) ≠ "metadata"
    ∧ (rewriteDefault "prod" exC4).lookup "kind" = exC4.lookup "kind" :=
  ⟨by decide, (defaultPolicies_rewrite "prod" exC4).2 "kind" (by decide)⟩

/-- C9: looking up any key in the parsed label object returns the value of
the LAST kept segment bearing that key (last occurrence wins); splitting a
kept segment happens at its first colon, so `key:a:b` maps `key` to
`a:b`; and the spec's example `app:web,env:prod` parses to the expected
two labels. -/
theorem splitLabels_last_wins :
    (∀ raw k : String,
      (splitLabels raw).lookup k = (labelPairsSpec raw).reverse.lookup k)
    ∧ splitLabels "key:a:b" = [("key", "a:b")]
    ∧ splitLabels "app:web,env:prod" = [("app", "web"), ("env", "prod")]
    ∧ splitLabels "a:1,a:2" = [("a", "2")] := by
  refine ⟨fun raw k => ?_, by decide, by decide, by decide⟩
  have h1 : splitLabels raw
      = (labelPairsSpec raw).foldl (fun o kv => objSet o kv.1 kv.2) [] := by
    rw [labelPairsSpec, List.foldl_map]
    rfl
  rw [h1, lookup_foldl_objSet]
  cases (labelPairsSpec raw).reverse.lookup k <;> simp [optOr, List.lookup]

/-- C5 witness: the first port entry of the concrete row `exC5` is a
member of its ports list and carries the uppercased protocol. -/
theorem makeRule_ports_spec_witness :
    (⟨"80", some "TCP"⟩ : PortEntry)
        ∈ ((makeRule exC5).toPorts.headD ⟨[]⟩).ports
    ∧ (⟨"80", some "TCP"⟩ : PortEntry).protocol =
        (if exC5.protocol ≠ "" ∧ jsToUpper exC5.protocol ≠ "ANY" then
          some (jsToUpper exC5.protocol)
        else none) :=
  ⟨by decide, (makeRule_ports_spec.1 exC5).2.2 _ (by decide)⟩

end Cilium
